import Mathlib

/-
Verification of the `Dictionary` core of lingpy (`lingpy/basic/dictionary.py`):
the alias-aware column registry, the `add_entries` create/override algorithm,
the `get_tuples` projection and the `tokenize` adapter.

The Python class state is embedded as a record of association lists that mirror
the instance attributes `_header`, `header`, `_alias`, `_alias2`, `entries` and
`_data`.  Python `dict` update semantics (update in place, append fresh keys at
the end, iteration in insertion order) are modelled by `lookupA` / `insertA` on
association lists.  Exceptions (`KeyError`, `IndexError`, `ValueError`) are
modelled by an error-carrying result that also records the state at the moment
the exception is raised, since the original mutates in place and a failure in
the middle of the row loop leaves earlier rows mutated.
-/

set_option autoImplicit false

namespace Lingpy

/-- A cell value of the row store: the Python code stores strings, token lists
(`str.split` results) and whatever a user transform returns; the claims only
need strings, token lists and integers. -/
inductive Val where
  | str (s : String)
  | toks (l : List String)
  | num (n : Int)
deriving DecidableEq, Repr

/-- First-match lookup in an association list: Python `m[k]` / `k in m`. -/
def lookupA {α β : Type} [DecidableEq α] : List (α × β) → α → Option β
  | [], _ => none
  | (k, v) :: rest, key => if k = key then some v else lookupA rest key

/-- Python `m[k] = v` on a `dict`: update in place if the key is present,
append at the end otherwise (insertion order is preserved). -/
def insertA {α β : Type} [DecidableEq α] : List (α × β) → α → β → List (α × β)
  | [], key, v => [(key, v)]
  | (k, w) :: rest, key, v =>
    if k = key then (key, v) :: rest else (k, w) :: insertA rest key v

/-- Python `max(m.values())` for a nonempty header map (`0` on the empty map, which the
caller guards against, mirroring Python's `ValueError`). -/
def maxVals (m : List (String × Nat)) : Nat :=
  (m.map Prod.snd).foldl max 0

/-- Python `s.lower()`, per-character (the names in play are ASCII). -/
def lowerStr (s : String) : String :=
  ⟨s.data.map Char.toLower⟩

/-- Python `s.upper()`, per-character (the names in play are ASCII). -/
def upperStr (s : String) : String :=
  ⟨s.data.map Char.toUpper⟩

/-- Python `c in s` for a single character. -/
def containsChar (s : String) (c : Char) : Bool :=
  s.data.contains c

/-- Helper for `splitChar`: split the remaining characters at `c`, with the
characters of the current field accumulated in reverse. -/
def splitCharAux (c : Char) : List Char → List Char → List String
  | [], acc => [⟨acc.reverse⟩]
  | x :: xs, acc =>
    if x = c then ⟨acc.reverse⟩ :: splitCharAux c xs []
    else splitCharAux c xs (x :: acc)

/-- Python `s.split(c)` for a one-character separator (`"a,".split(',')` is
`["a", ""]`, `"".split(',')` is `[""]`). -/
def splitChar (s : String) (c : Char) : List String :=
  splitCharAux c s.data []

/-- Insert a string into an ascending list (helper for Python `sorted`, which
compares strings lexicographically by code point). -/
def insSorted (x : String) : List String → List String
  | [] => [x]
  | y :: ys => if y.data < x.data then y :: insSorted x ys else x :: y :: ys

/-- Python `sorted(...)` on a list of strings (insertion sort; the inputs are
duplicate-free, so stability is irrelevant). -/
def sortStr (l : List String) : List String :=
  l.foldr insSorted []

/-- Python `set(...)` as a duplicate-free list (keeps last occurrences; the
order is irrelevant because the result is sorted afterwards). -/
def dedupStr : List String → List String
  | [] => []
  | x :: xs => if x ∈ xs then dedupStr xs else x :: dedupStr xs

/-- Python `sorted(set(l))`. -/
def sortedSet (l : List String) : List String :=
  sortStr (dedupStr l)

/-- The mutable state of a `Dictionary` instance: the attributes touched by
`get_tuples`, `add_entries` and `tokenize`.  `_header` maps every alias to its
column index, `header` maps canonical names to indices, `_alias` maps each
alias to its canonical name, `_alias2` maps each canonical name to its list of
aliases, `entries` is the sorted list of known entry-types, `_data` maps row
keys to rows (kept in insertion order). -/
structure Dictionary where
  _header : List (String × Nat)
  header : List (String × Nat)
  _alias : List (String × String)
  _alias2 : List (String × List String)
  entries : List String
  _data : List (Nat × List Val)
deriving DecidableEq, Repr

/-- The `source` argument of `add_entries`: either a string naming one column
(or several, comma-separated), or an external key→value mapping (`dict`). -/
inductive Source where
  | name (s : String)
  | ext (m : List (Nat × Val))
deriving DecidableEq, Repr

/-- Errors modelling the Python exceptions that `add_entries` can raise. -/
inductive AddError where
  | keyError (k : String)
  | missingSourceKey (k : Nat)
  | indexError (i : Nat)
  | valueError
  | typeError
  | outOfFuel
deriving DecidableEq, Repr

/-- The `function` argument of `add_entries`: one Python callable, invoked as
`function(row, idxs)` on the multi-column path (`multi`) and as
`function(s, **keywords)` on the single-column path or `function(s)` on the
external-mapping path (`kw`, with the keyword list empty in the latter case).
A call that the callable cannot accept (wrong arity, wrong argument type)
is modelled by an `Except.error`. -/
structure Transform where
  multi : List Val → List Nat → Except AddError Val
  kw : Val → List (String × Val) → Except AddError Val

/-- Result of an `add_entries` call.  `ok` is a normal return after mutating
the state, `err` is an uncaught exception raised with the state as mutated so
far, `noop` is the early `return` on an empty entry name, `aborted` is the
`"...aborting..."` branch of the interactive conflict prompt. -/
inductive AddResult where
  | ok (d : Dictionary)
  | err (e : AddError) (d : Dictionary)
  | noop (d : Dictionary)
  | aborted (d : Dictionary)
deriving DecidableEq, Repr

/-- The state carried by an `AddResult`. -/
def stateOf : AddResult → Dictionary
  | .ok d => d
  | .err _ d => d
  | .noop d => d
  | .aborted d => d

/-- Did the call return normally? -/
def AddResult.isOk : AddResult → Bool
  | .ok _ => true
  | _ => false

/-- The row loop shared by all six branches of `add_entries`
(`for key in self: ... t = ...; <mutate row>`): `get` computes the derived
value for one row (raising on a missing source key, an out-of-range source
index, or a transform failure), `upd` mutates one row (append on the create
path, indexed write on the override path).  On an exception, rows already
visited stay mutated and the remaining rows are untouched, exactly as in
Python. -/
def updLoop (get : Nat → List Val → Except AddError Val)
    (upd : List Val → Val → Except AddError (List Val)) :
    List (Nat × List Val) → Option AddError × List (Nat × List Val)
  | [] => (none, [])
  | (k, r) :: rest =>
    match get k r with
    | .error e => (some e, (k, r) :: rest)
    | .ok t =>
      match upd r t with
      | .error e => (some e, (k, r) :: rest)
      | .ok r' =>
        let (e, rest') := updLoop get upd rest
        (e, (k, r') :: rest')

/-- Repack the outcome of `updLoop` over `d._data` as an `AddResult`. -/
def finishLoop (d : Dictionary) : Option AddError × List (Nat × List Val) → AddResult
  | (none, data) => .ok { d with _data := data }
  | (some e, data) => .err e { d with _data := data }

/-- Per-row derived value on the multi-column path: `t = function(s, idxs)`
where `s` is the whole row. -/
def multiGet (f : Transform) (idxs : List Nat) :
    Nat → List Val → Except AddError Val :=
  fun _ r => f.multi r idxs

/-- Per-row derived value on the single-column path: `s = self[key][idx]`
(raising `IndexError` when out of range), `t = function(s, **keywords)`. -/
def singleGet (f : Transform) (idx : Nat) (kws : List (String × Val)) :
    Nat → List Val → Except AddError Val :=
  fun _ r =>
    match r[idx]? with
    | none => .error (.indexError idx)
    | some v => f.kw v kws

/-- Per-row derived value on the external-mapping path: `s = source[key]`
(raising `KeyError`, the `MissingSourceKey` condition, when the row key is
absent), `t = function(s)`. -/
def extGet (f : Transform) (m : List (Nat × Val)) :
    Nat → List Val → Except AddError Val :=
  fun k _ =>
    match lookupA m k with
    | none => .error (.missingSourceKey k)
    | some v => f.kw v []

/-- Row mutation on the create path: `self[key].append(t)`. -/
def appendUpd : List Val → Val → Except AddError (List Val) :=
  fun r t => .ok (r ++ [t])

/-- Row mutation on the override path: `self[key][rIdx] = t` (Python list
assignment raises `IndexError` when `rIdx` is out of range). -/
def setUpd (rIdx : Nat) : List Val → Val → Except AddError (List Val) :=
  fun r t => if rIdx < r.length then .ok (r.set rIdx t) else .error (.indexError rIdx)

/-- Source dispatch of `add_entries` (identical on the create and override
paths, which differ only in the row mutation `upd`):
a comma in a string source selects the multi-column path, a `dict` source the
external-mapping path (a `dict` with integer row keys never contains the
comma character, so `',' in source` is false for it), and any other string the
single-column path. -/
def runRows (d : Dictionary) (source : Source) (f : Transform)
    (kws : List (String × Val))
    (upd : List Val → Val → Except AddError (List Val)) : AddResult :=
  match source with
  | .name s =>
    if containsChar s ',' then
      let sources := splitChar s ','
      match sources.find? (fun nm => (lookupA d._header nm).isNone) with
      | some bad => .err (.keyError bad) d
      | none =>
        let idxs := sources.filterMap (fun nm => lookupA d._header nm)
        finishLoop d (updLoop (multiGet f idxs) upd d._data)
    else
      match lookupA d._header s with
      | none => .err (.keyError s) d
      | some idx =>
        finishLoop d (updLoop (singleGet f idx kws) upd d._data)
  | .ext m =>
    finishLoop d (updLoop (extGet f m) upd d._data)

/-- The `elif not override:` create path of `add_entries`: synthesize the
default alias pair if `entry.lower()` has no alias list, resolve the canonical
`name`, compute `newIdx = max(self._header.values()) + 1`, bind every alias of
`name` to `newIdx`, record the canonical index in `header`, re-sort `entries`
with the raw `entry` added, then append one derived value to every row. -/
def createPath (d : Dictionary) (entry : String) (source : Source)
    (f : Transform) (kws : List (String × Val)) : AddResult :=
  let d1 :=
    if lookupA d._alias2 (lowerStr entry) = none then
      { d with
        _alias2 := insertA d._alias2 (lowerStr entry) [(lowerStr entry), (upperStr entry)]
        _alias := insertA (insertA d._alias (lowerStr entry) (lowerStr entry))
          (upperStr entry) (lowerStr entry) }
    else d
  match lookupA d1._alias (lowerStr entry) with
  | none => .err (.keyError (lowerStr entry)) d1
  | some name =>
    if d1._header = [] then .err .valueError d1
    else
      let newIdx := maxVals d1._header + 1
      match lookupA d1._alias2 name with
      | none => .err (.keyError name) d1
      | some aliases =>
        let hdr := aliases.foldl (fun h a => insertA h a newIdx) d1._header
        match lookupA hdr name with
        | none => .err (.keyError name) { d1 with _header := hdr }
        | some nameIdx =>
          let d2 := { d1 with
            _header := hdr
            header := insertA d1.header name nameIdx
            entries := sortedSet (d1.entries ++ [entry]) }
          runRows d2 source f kws appendUpd

/-- The `elif override:` path of `add_entries`: resolve
`rIdx = self._header[entry.lower()]` and overwrite position `rIdx` of every
row with the derived value (an out-of-range `rIdx` raises, as Python list
assignment does). -/
def overridePath (d : Dictionary) (entry : String) (source : Source)
    (f : Transform) (kws : List (String × Val)) : AddResult :=
  match lookupA d._header (lowerStr entry) with
  | none => .err (.keyError (lowerStr entry)) d
  | some rIdx =>
    runRows d source f kws (setUpd rIdx)

/-- The body of `Dictionary.add_entries`, fuelled.  The fuel bounds the recursion of the
two self-calls (the silent non-override retry when an override is requested
for an unknown column, and the interactive-prompt retry as an override); the
interactive `input()` is modelled by the extra `answer` argument, re-read
unchanged on every prompt.  Note that the non-override retry drops the
keyword arguments, exactly as `self.add_entries(entry,source,function,
override=False)` does. -/
def addEntriesAux : Nat → Dictionary → String → Source → Transform → Bool →
    List (String × Val) → String → AddResult
  | 0, d, _, _, _, _, _, _ => .err .outOfFuel d
  | fuel + 1, d, entry, source, f, override, kws, answer =>
    if entry = "" then .noop d
    else if lookupA d.header entry = none ∧ override = true then
      addEntriesAux fuel d entry source f false [] answer
    else if (lookupA d._header entry).isSome ∧ override = false then
      if (lowerStr answer) ∈ ["y", "yes", "j"] then
        addEntriesAux fuel d entry source f true kws answer
      else .aborted d
    else if override = false then createPath d entry source f kws
    else overridePath d entry source f kws

/-- The method `Dictionary.add_entries` with enough fuel for every terminating chain of
self-calls (the longest is override-retry → prompt-retry → override path). -/
def add_entries (d : Dictionary) (entry : String) (source : Source)
    (f : Transform) (override : Bool) (kws : List (String × Val))
    (answer : String) : AddResult :=
  addEntriesAux 4 d entry source f override kws answer

/-- One element of a `get_tuples` result: a bare value when exactly one
requested column is present, a tuple when several are. -/
inductive Proj where
  | val (v : Val)
  | tup (vs : List Val)
deriving DecidableEq, Repr

/-- The `for row in self._data.values(): entries.append(...)` loop of
`get_tuples`: build one projected entry per row in row-store order, `none`
modelling an uncaught `IndexError` from the per-row projection `g`. -/
def collectRows {α : Type} (g : List Val → Option α) :
    List (Nat × List Val) → Option (List α)
  | [] => some []
  | kr :: rest =>
    match g kr.2, collectRows g rest with
    | some y, some ys => some (y :: ys)
    | _, _ => none

/-- Python `itemgetter(*idxs)(row)`: the row values at the given indices, `none`
modelling `IndexError`. -/
def getIdxs (r : List Val) : List Nat → Option (List Val)
  | [] => some []
  | x :: xs =>
    match r[x]?, getIdxs r xs with
    | some v, some vs => some (v :: vs)
    | _, _ => none

/-- The method `Dictionary.get_tuples`: collect the indices of the requested columns that
are present in `_header` (absent ones are silently skipped), then project each
row — as bare values when exactly one index was collected, as tuples when two
or more were, and as the empty list when none was. -/
def get_tuples (d : Dictionary) (columns : List String) : Option (List Proj) :=
  match columns.filterMap (fun entry => lookupA d._header entry) with
  | [] => some []
  | [i] => collectRows (fun r => (r[i]?).map Proj.val) d._data
  | i :: j :: rest =>
    collectRows (fun r => (getIdxs r (i :: j :: rest)).map Proj.tup) d._data

/-- Modelled from the spec: the external `Tokenizer` component
(`lingpy.sequence.tokenizer`, not part of the analysed sources) is an opaque
capability `tokenize(string) → string`, configured by an orthography profile;
it is passed here as the function `t`.  `tokTransform` is the transform that
`Dictionary.tokenize` builds from it: `lambda x: t.tokenize(x).split(' ')`
when the target is the reserved name `"tokens"`, `lambda x: t.tokenize(x)`
otherwise.  Either lambda accepts exactly one positional argument and no
keywords, and requires a string argument. -/
def tokTransform (t : String → String) (target : String) : Transform :=
  if target = "tokens" then
    { multi := fun _ _ => .error .typeError
      kw := fun v kws =>
        match v, kws with
        | .str x, [] => .ok (.toks (splitChar (t x) ' '))
        | _, _ => .error .typeError }
  else
    { multi := fun _ _ => .error .typeError
      kw := fun v kws =>
        match v, kws with
        | .str x, [] => .ok (.str (t x))
        | _, _ => .error .typeError }

/-- The method `Dictionary.tokenize`: build the transform from the configured tokenizer
`t` and hand it unmodified to `add_entries` for the `target` column with the
given `source` (default `"head"`), `override = False` and no keywords.
The Python defaults are `source = "head"`, `target = "tokens"`. -/
def tokenize (t : String → String) (d : Dictionary) (source : String)
    (target : String) (answer : String) : AddResult :=
  add_entries d target (.name source) (tokTransform t target) false [] answer

/-- Alias-consistency: every alias in the alias list of every registered
canonical name resolves to the same column index as every other alias of that
name. -/
def aliasConsistent (d : Dictionary) : Prop :=
  ∀ p ∈ d._alias2, ∀ a ∈ p.2, ∀ b ∈ p.2,
    lookupA d._header a = lookupA d._header b

instance (d : Dictionary) : Decidable (aliasConsistent d) := by
  unfold aliasConsistent; infer_instance

/-- The number of registered canonical columns (the size of the canonical
name → index map). -/
def numCols (d : Dictionary) : Nat :=
  d.header.length

/-- Row-width invariant: every row holds exactly one value per registered
canonical column. -/
def rowWidth (d : Dictionary) : Prop :=
  ∀ p ∈ d._data, p.2.length = numCols d

instance (d : Dictionary) : Decidable (rowWidth d) := by
  unfold rowWidth; infer_instance

/-- The registry state produced by the synthesize-create path (the case where
`entry.lower()` has no alias list yet) before the row loop runs. -/
def createDict (d : Dictionary) (entry : String) : Dictionary :=
  let lo := (lowerStr entry)
  let up := (upperStr entry)
  let newIdx := maxVals d._header + 1
  { _header := insertA (insertA d._header lo newIdx) up newIdx
    header := insertA d.header lo newIdx
    _alias := insertA (insertA d._alias lo lo) up lo
    _alias2 := insertA d._alias2 lo [lo, up]
    entries := sortedSet (d.entries ++ [entry])
    _data := d._data }

/-- The registry parts of two states coincide (everything but `_data`). -/
def regEq (d d' : Dictionary) : Prop :=
  d'._header = d._header ∧ d'.header = d.header ∧ d'._alias = d._alias ∧
    d'._alias2 = d._alias2 ∧ d'.entries = d.entries

section AssocLemmas

variable {α β : Type} [DecidableEq α]

theorem lookupA_insertA_self (m : List (α × β)) (k : α) (v : β) :
    lookupA (insertA m k v) k = some v := by
  induction m with
  | nil => simp [insertA, lookupA]
  | cons p rest ih =>
    by_cases h : p.1 = k
    · simp [insertA, h, lookupA]
    · simp [insertA, h, lookupA, ih]

theorem lookupA_insertA_ne (m : List (α × β)) (k k' : α) (v : β)
    (h : k' ≠ k) : lookupA (insertA m k v) k' = lookupA m k' := by
  induction m with
  | nil => simp [insertA, lookupA, Ne.symm h]
  | cons p rest ih =>
    by_cases hp : p.1 = k
    · subst hp
      simp [insertA, lookupA, Ne.symm h]
    · simp only [insertA, if_neg hp, lookupA]
      by_cases hk' : p.1 = k' <;> simp [hk', ih]

theorem lookupA_eq_none_iff (m : List (α × β)) (k : α) :
    lookupA m k = none ↔ ∀ p ∈ m, p.1 ≠ k := by
  induction m with
  | nil => simp [lookupA]
  | cons p rest ih =>
    by_cases h : p.1 = k <;> simp [lookupA, h, ih]

theorem insertA_of_lookup_none (m : List (α × β)) (k : α) (v : β)
    (h : lookupA m k = none) : insertA m k v = m ++ [(k, v)] := by
  induction m with
  | nil => simp [insertA]
  | cons p rest ih =>
    rw [lookupA_eq_none_iff] at h
    have hp : p.1 ≠ k := h p (by simp)
    have hr : lookupA rest k = none := by
      rw [lookupA_eq_none_iff]
      exact fun q hq => h q (by simp [hq])
    simp [insertA, hp, ih hr]

theorem length_insertA_of_none (m : List (α × β)) (k : α) (v : β)
    (h : lookupA m k = none) : (insertA m k v).length = m.length + 1 := by
  simp [insertA_of_lookup_none m k v h]

end AssocLemmas

theorem mem_insSorted (x y : String) (l : List String) :
    y ∈ insSorted x l ↔ y = x ∨ y ∈ l := by
  induction l with
  | nil => simp [insSorted]
  | cons z zs ih =>
    by_cases h : z.data < x.data
    · simp [insSorted, h, ih]
      tauto
    · simp [insSorted, h]

theorem mem_sortStr (y : String) (l : List String) :
    y ∈ sortStr l ↔ y ∈ l := by
  induction l with
  | nil => simp [sortStr]
  | cons z zs ih =>
    simp only [sortStr, List.foldr] at ih ⊢
    rw [mem_insSorted, ih]
    simp

theorem mem_dedupStr (y : String) (l : List String) :
    y ∈ dedupStr l ↔ y ∈ l := by
  induction l with
  | nil => simp [dedupStr]
  | cons z zs ih =>
    by_cases h : z ∈ zs
    · rw [dedupStr, if_pos h]
      simp only [List.mem_cons, ih]
      constructor
      · exact Or.inr
      · rintro (rfl | hy)
        · exact h
        · exact hy
    · rw [dedupStr, if_neg h]
      simp [ih]

theorem mem_sortedSet (y : String) (l : List String) :
    y ∈ sortedSet l ↔ y ∈ l := by
  rw [sortedSet, mem_sortStr, mem_dedupStr]

theorem forall2_mem_right {γ δ : Type} {R : γ → δ → Prop} :
    ∀ {l : List γ} {l' : List δ}, List.Forall₂ R l l' →
      ∀ b ∈ l', ∃ a ∈ l, R a b := by
  intro l l' h
  induction h with
  | nil => simp
  | cons hab _ ih =>
    intro b hb
    rcases List.mem_cons.mp hb with hb | hb
    · exact ⟨_, by simp, hb ▸ hab⟩
    · rcases ih b hb with ⟨a, ha, hr⟩
      exact ⟨a, by simp [ha], hr⟩

theorem updLoop_ok (get : Nat → List Val → Except AddError Val)
    (upd : List Val → Val → Except AddError (List Val)) :
    ∀ rows rows', updLoop get upd rows = (none, rows') →
      List.Forall₂ (fun p q => q.1 = p.1 ∧
        ∃ t, get p.1 p.2 = .ok t ∧ upd p.2 t = .ok q.2) rows rows' := by
  intro rows
  induction rows with
  | nil =>
    intro rows' h
    simp only [updLoop] at h
    cases h
    exact List.Forall₂.nil
  | cons p rest ih =>
    intro rows' h
    obtain ⟨k, r⟩ := p
    cases hget : get k r with
    | error e =>
      simp only [updLoop, hget, Prod.mk.injEq] at h
      exact absurd h.1 (Option.some_ne_none e)
    | ok t =>
      cases hupd : upd r t with
      | error e =>
        simp only [updLoop, hget, hupd, Prod.mk.injEq] at h
        exact absurd h.1 (Option.some_ne_none e)
      | ok r' =>
        cases hrec : updLoop get upd rest with
        | mk e rest' =>
          simp only [updLoop, hget, hupd, hrec, Prod.mk.injEq] at h
          cases e with
          | none =>
            obtain ⟨-, h2⟩ := h
            subst h2
            exact List.Forall₂.cons ⟨rfl, t, hget, hupd⟩ (ih _ hrec)
          | some e0 => simp at h

theorem updLoop_total (get : Nat → List Val → Except AddError Val)
    (upd : List Val → Val → Except AddError (List Val)) :
    ∀ rows, (∀ p ∈ rows, ∃ t r', get p.1 p.2 = .ok t ∧ upd p.2 t = .ok r') →
      ∃ rows', updLoop get upd rows = (none, rows') := by
  intro rows
  induction rows with
  | nil => exact fun _ => ⟨[], rfl⟩
  | cons p rest ih =>
    intro hall
    obtain ⟨k, r⟩ := p
    obtain ⟨t, r', hget, hupd⟩ := hall (k, r) (by simp)
    obtain ⟨rest', hrec⟩ := ih (fun q hq => hall q (by simp [hq]))
    exact ⟨(k, r') :: rest', by simp only [updLoop, hget, hupd, hrec]⟩

theorem updLoop_err_exists (get : Nat → List Val → Except AddError Val)
    (upd : List Val → Val → Except AddError (List Val)) (P : AddError → Prop) :
    ∀ rows, (∀ p ∈ rows, ∀ e, get p.1 p.2 = .error e → P e) →
      (∀ p ∈ rows, ∀ t, get p.1 p.2 = .ok t → ∃ r', upd p.2 t = .ok r') →
      (∃ p ∈ rows, ∃ e0, get p.1 p.2 = .error e0) →
      ∃ e rows', updLoop get upd rows = (some e, rows') ∧ P e := by
  intro rows
  induction rows with
  | nil => simp
  | cons p rest ih =>
    intro herr hok hex
    obtain ⟨k, r⟩ := p
    cases hget : get k r with
    | error e =>
      exact ⟨e, (k, r) :: rest, by simp only [updLoop, hget],
        herr (k, r) (by simp) e hget⟩
    | ok t =>
      obtain ⟨r', hupd⟩ := hok (k, r) (by simp) t hget
      obtain ⟨q, hq, e0, hqe⟩ := hex
      have hqrest : q ∈ rest := by
        rcases List.mem_cons.mp hq with h | h
        · subst h
          rw [hget] at hqe
          cases hqe
        · exact h
      obtain ⟨e, rest', hrec, hPe⟩ := ih (fun q hq => herr q (by simp [hq]))
        (fun q hq => hok q (by simp [hq])) ⟨q, hqrest, e0, hqe⟩
      exact ⟨e, (k, r') :: rest', by simp only [updLoop, hget, hupd, hrec], hPe⟩

theorem finishLoop_ok (d : Dictionary) (x : Option AddError × List (Nat × List Val))
    (d' : Dictionary) (h : finishLoop d x = .ok d') :
    regEq d d' ∧ x = (none, d'._data) := by
  obtain ⟨e, data⟩ := x
  cases e with
  | none =>
    simp only [finishLoop] at h
    injection h with h
    subst h
    exact ⟨⟨rfl, rfl, rfl, rfl, rfl⟩, rfl⟩
  | some e0 => cases h

theorem finishLoop_state (d : Dictionary) (x : Option AddError × List (Nat × List Val)) :
    regEq d (stateOf (finishLoop d x)) := by
  obtain ⟨e, data⟩ := x
  cases e with
  | none => exact ⟨rfl, rfl, rfl, rfl, rfl⟩
  | some e0 => exact ⟨rfl, rfl, rfl, rfl, rfl⟩

theorem runRows_name_single (d : Dictionary) (s : String) (f : Transform)
    (kws : List (String × Val)) (upd : List Val → Val → Except AddError (List Val))
    (idx : Nat) (hc : containsChar s ',' = false)
    (hidx : lookupA d._header s = some idx) :
    runRows d (.name s) f kws upd =
      finishLoop d (updLoop (singleGet f idx kws) upd d._data) := by
  simp only [runRows, hc, Bool.false_eq_true, if_false, hidx]

theorem runRows_ext (d : Dictionary) (m : List (Nat × Val)) (f : Transform)
    (kws : List (String × Val)) (upd : List Val → Val → Except AddError (List Val)) :
    runRows d (.ext m) f kws upd =
      finishLoop d (updLoop (extGet f m) upd d._data) := rfl

theorem runRows_ok (d : Dictionary) (source : Source) (f : Transform)
    (kws : List (String × Val)) (upd : List Val → Val → Except AddError (List Val))
    (d' : Dictionary) (h : runRows d source f kws upd = .ok d') :
    regEq d d' ∧ ∃ get, updLoop get upd d._data = (none, d'._data) := by
  cases source with
  | name s =>
    by_cases hc : containsChar s ','
    · simp only [runRows, hc, if_true] at h
      cases hf : (splitChar s ',').find? (fun nm => (lookupA d._header nm).isNone) with
      | some bad => rw [hf] at h; cases h
      | none =>
        rw [hf] at h
        obtain ⟨hreg, hx⟩ := finishLoop_ok _ _ _ h
        exact ⟨hreg, _, hx⟩
    · simp only [runRows, hc, if_false, Bool.false_eq_true] at h
      cases hl : lookupA d._header s with
      | none => rw [hl] at h; cases h
      | some idx =>
        rw [hl] at h
        obtain ⟨hreg, hx⟩ := finishLoop_ok _ _ _ h
        exact ⟨hreg, _, hx⟩
  | ext m =>
    obtain ⟨hreg, hx⟩ := finishLoop_ok _ _ _ h
    exact ⟨hreg, _, hx⟩

theorem runRows_state (d : Dictionary) (source : Source) (f : Transform)
    (kws : List (String × Val)) (upd : List Val → Val → Except AddError (List Val)) :
    regEq d (stateOf (runRows d source f kws upd)) := by
  cases source with
  | name s =>
    by_cases hc : containsChar s ','
    · simp only [runRows, hc, if_true]
      cases hf : (splitChar s ',').find? (fun nm => (lookupA d._header nm).isNone) with
      | some bad => exact ⟨rfl, rfl, rfl, rfl, rfl⟩
      | none => exact finishLoop_state _ _
    · simp only [runRows, hc, if_false, Bool.false_eq_true]
      cases hl : lookupA d._header s with
      | none => exact ⟨rfl, rfl, rfl, rfl, rfl⟩
      | some idx => exact finishLoop_state _ _
  | ext m => exact finishLoop_state _ _

theorem addEntriesAux_create (n : Nat) (d : Dictionary) (entry : String)
    (source : Source) (f : Transform) (kws : List (String × Val)) (answer : String)
    (hne : entry ≠ "") (hnh : lookupA d._header entry = none) :
    addEntriesAux (n + 1) d entry source f false kws answer =
      createPath d entry source f kws := by
  simp [addEntriesAux, hne, hnh]

theorem addEntriesAux_override (n : Nat) (d : Dictionary) (entry : String)
    (source : Source) (f : Transform) (kws : List (String × Val)) (answer : String)
    (i : Nat) (hne : entry ≠ "") (hh : lookupA d.header entry = some i) :
    addEntriesAux (n + 1) d entry source f true kws answer =
      overridePath d entry source f kws := by
  simp [addEntriesAux, hne, hh]

theorem overridePath_eq (d : Dictionary) (entry : String) (source : Source)
    (f : Transform) (kws : List (String × Val)) (rIdx : Nat)
    (h : lookupA d._header (lowerStr entry) = some rIdx) :
    overridePath d entry source f kws = runRows d source f kws (setUpd rIdx) := by
  simp only [overridePath, h]

theorem createPath_synth (d : Dictionary) (entry : String) (source : Source)
    (f : Transform) (kws : List (String × Val))
    (hal2 : lookupA d._alias2 (lowerStr entry) = none)
    (hhd : d._header ≠ []) :
    createPath d entry source f kws =
      runRows (createDict d entry) source f kws appendUpd := by
  have hname : lookupA (insertA (insertA d._alias (lowerStr entry) (lowerStr entry))
      (upperStr entry) (lowerStr entry)) (lowerStr entry) = some (lowerStr entry) := by
    by_cases hul : (lowerStr entry) = (upperStr entry)
    · rw [← hul, lookupA_insertA_self]
    · rw [lookupA_insertA_ne _ _ _ _ hul, lookupA_insertA_self]
  have hhdr : lookupA (insertA (insertA d._header (lowerStr entry) (maxVals d._header + 1))
      (upperStr entry) (maxVals d._header + 1)) (lowerStr entry) =
      some (maxVals d._header + 1) := by
    by_cases hul : (lowerStr entry) = (upperStr entry)
    · rw [← hul, lookupA_insertA_self]
    · rw [lookupA_insertA_ne _ _ _ _ hul, lookupA_insertA_self]
  simp only [createPath, hal2, if_pos, hname, hhd, lookupA_insertA_self,
    List.foldl, hhdr, createDict]
  rfl

theorem createDict_alias2 (d : Dictionary) (entry : String) :
    (createDict d entry)._alias2 =
      insertA d._alias2 (lowerStr entry) [(lowerStr entry), (upperStr entry)] := rfl

theorem createDict_header2 (d : Dictionary) (entry : String) :
    (createDict d entry)._header =
      insertA (insertA d._header (lowerStr entry) (maxVals d._header + 1))
        (upperStr entry) (maxVals d._header + 1) := rfl

theorem createDict_header (d : Dictionary) (entry : String) :
    (createDict d entry).header =
      insertA d.header (lowerStr entry) (maxVals d._header + 1) := rfl

theorem createDict_entries (d : Dictionary) (entry : String) :
    (createDict d entry).entries = sortedSet (d.entries ++ [entry]) := rfl

theorem createDict_data (d : Dictionary) (entry : String) :
    (createDict d entry)._data = d._data := rfl

/-- The create path when the header map is empty: `max(self._header.values())`
raises `ValueError` after the alias synthesis has already been recorded. -/
theorem createPath_synth_nil (d : Dictionary) (entry : String) (source : Source)
    (f : Transform) (kws : List (String × Val))
    (hal2 : lookupA d._alias2 (lowerStr entry) = none)
    (hhd : d._header = []) :
    createPath d entry source f kws =
      .err .valueError
        { d with
          _alias2 := insertA d._alias2 (lowerStr entry) [(lowerStr entry), (upperStr entry)]
          _alias := insertA (insertA d._alias (lowerStr entry) (lowerStr entry))
            (upperStr entry) (lowerStr entry) } := by
  have hname : lookupA (insertA (insertA d._alias (lowerStr entry) (lowerStr entry))
      (upperStr entry) (lowerStr entry)) (lowerStr entry) = some (lowerStr entry) := by
    by_cases hul : (lowerStr entry) = (upperStr entry)
    · rw [← hul, lookupA_insertA_self]
    · rw [lookupA_insertA_ne _ _ _ _ hul, lookupA_insertA_self]
  simp only [createPath, hal2, if_pos, hname, hhd]

theorem aliasConsistent_congr (d d' : Dictionary) (h2 : d'._alias2 = d._alias2)
    (h1 : d'._header = d._header) (hc : aliasConsistent d) : aliasConsistent d' := by
  intro p hp a ha b hb
  rw [h2] at hp
  rw [h1]
  exact hc p hp a ha b hb

theorem aliasConsistent_of_header_nil (d : Dictionary) (h : d._header = []) :
    aliasConsistent d := by
  intro p _ a _ b _
  rw [h]
  rfl

theorem overridePath_state (d : Dictionary) (entry : String) (source : Source)
    (f : Transform) (kws : List (String × Val)) :
    regEq d (stateOf (overridePath d entry source f kws)) := by
  unfold overridePath
  cases lookupA d._header (lowerStr entry) with
  | none => exact ⟨rfl, rfl, rfl, rfl, rfl⟩
  | some rIdx => exact runRows_state _ _ _ _ _

theorem aliasConsistent_createDict (d : Dictionary) (entry : String)
    (hcons : aliasConsistent d)
    (hal2 : lookupA d._alias2 (lowerStr entry) = none)
    (hfresh : ∀ p ∈ d._alias2, ∀ a ∈ p.2, a ≠ (lowerStr entry) ∧ a ≠ (upperStr entry)) :
    aliasConsistent (createDict d entry) := by
  have hlook : ∀ c ∈ ([(lowerStr entry), (upperStr entry)] : List String),
      lookupA (createDict d entry)._header c = some (maxVals d._header + 1) := by
    intro c hc
    rw [createDict_header2]
    rcases List.mem_cons.mp hc with h | h
    · subst h
      by_cases hul : (lowerStr entry) = (upperStr entry)
      · rw [← hul, lookupA_insertA_self]
      · rw [lookupA_insertA_ne _ _ _ _ hul, lookupA_insertA_self]
    · have : c = (upperStr entry) := by simpa using h
      subst this
      rw [lookupA_insertA_self]
  intro p hp a ha b hb
  rw [createDict_alias2, insertA_of_lookup_none _ _ _ hal2] at hp
  rcases List.mem_append.mp hp with hold | hnew
  · obtain ⟨ha1, ha2⟩ := hfresh p hold a ha
    obtain ⟨hb1, hb2⟩ := hfresh p hold b hb
    have la : lookupA (createDict d entry)._header a = lookupA d._header a := by
      rw [createDict_header2, lookupA_insertA_ne _ _ _ _ ha2,
        lookupA_insertA_ne _ _ _ _ ha1]
    have lb : lookupA (createDict d entry)._header b = lookupA d._header b := by
      rw [createDict_header2, lookupA_insertA_ne _ _ _ _ hb2,
        lookupA_insertA_ne _ _ _ _ hb1]
    rw [la, lb]
    exact hcons p hold a ha b hb
  · have hpe : p = ((lowerStr entry), [(lowerStr entry), (upperStr entry)]) := by
      simpa using hnew
    subst hpe
    rw [hlook a ha, hlook b hb]

theorem aliasConsistent_aux (d : Dictionary) (entry : String) (source : Source)
    (f : Transform) (answer : String)
    (hcons : aliasConsistent d)
    (hal2 : lookupA d._alias2 (lowerStr entry) = none)
    (hfresh : ∀ p ∈ d._alias2, ∀ a ∈ p.2, a ≠ (lowerStr entry) ∧ a ≠ (upperStr entry)) :
    ∀ n override kws,
      aliasConsistent (stateOf (addEntriesAux n d entry source f override kws answer)) := by
  intro n
  induction n with
  | zero => intro override kws; exact hcons
  | succ n ih =>
    intro override kws
    simp only [addEntriesAux]
    split_ifs with h0 h1 h2 h3 h4
    · exact hcons
    · exact ih false []
    · exact ih true kws
    · exact hcons
    · by_cases hhd : d._header = []
      · rw [createPath_synth_nil d entry source f kws hal2 hhd]
        exact aliasConsistent_of_header_nil _ (by simpa using hhd)
      · rw [createPath_synth d entry source f kws hal2 hhd]
        obtain ⟨e1, -, -, e2, -⟩ :=
          runRows_state (createDict d entry) source f kws appendUpd
        exact aliasConsistent_congr _ _ e2 e1
          (aliasConsistent_createDict d entry hcons hal2 hfresh)
    · obtain ⟨e1, -, -, e2, -⟩ := overridePath_state d entry source f kws
      exact aliasConsistent_congr _ _ e2 e1 hcons

theorem appendUpd_ok (r : List Val) (t : Val) (r' : List Val)
    (h : appendUpd r t = .ok r') : r' = r ++ [t] := by
  simp only [appendUpd] at h
  injection h with h
  exact h.symm

theorem setUpd_ok (i : Nat) (r : List Val) (t : Val) (r' : List Val)
    (h : setUpd i r t = .ok r') : r' = r.set i t ∧ i < r.length := by
  simp only [setUpd] at h
  by_cases hlt : i < r.length
  · rw [if_pos hlt] at h
    injection h with h
    exact ⟨h.symm, hlt⟩
  · rw [if_neg hlt] at h
    cases h

theorem overridePath_ok (d : Dictionary) (entry : String) (source : Source)
    (f : Transform) (kws : List (String × Val)) (d' : Dictionary) (rIdx : Nat)
    (hl : lookupA d._header (lowerStr entry) = some rIdx)
    (h : overridePath d entry source f kws = .ok d') :
    regEq d d' ∧
      List.Forall₂ (fun p q => q.1 = p.1 ∧ ∃ t, q.2 = p.2.set rIdx t ∧ rIdx < p.2.length)
        d._data d'._data := by
  rw [overridePath_eq d entry source f kws rIdx hl] at h
  obtain ⟨hreg, get, hloop⟩ := runRows_ok _ _ _ _ _ _ h
  refine ⟨hreg, (updLoop_ok get (setUpd rIdx) _ _ hloop).imp ?_⟩
  rintro p q ⟨h1, t, -, hupd⟩
  obtain ⟨hq, hlt⟩ := setUpd_ok _ _ _ _ hupd
  exact ⟨h1, t, hq, hlt⟩

theorem overridePath_ok_shape (d : Dictionary) (entry : String) (source : Source)
    (f : Transform) (kws : List (String × Val)) (d' : Dictionary)
    (h : overridePath d entry source f kws = .ok d') :
    ∃ rIdx, lookupA d._header (lowerStr entry) = some rIdx := by
  unfold overridePath at h
  cases hl : lookupA d._header (lowerStr entry) with
  | none => rw [hl] at h; cases h
  | some rIdx => exact ⟨rIdx, rfl⟩

theorem createPath_ok_synth (d : Dictionary) (entry : String) (source : Source)
    (f : Transform) (kws : List (String × Val)) (d' : Dictionary)
    (hal2 : lookupA d._alias2 (lowerStr entry) = none)
    (hhd : d._header ≠ [])
    (h : createPath d entry source f kws = .ok d') :
    regEq (createDict d entry) d' ∧
      List.Forall₂ (fun p q => q.1 = p.1 ∧ ∃ t, q.2 = p.2 ++ [t]) d._data d'._data := by
  rw [createPath_synth d entry source f kws hal2 hhd] at h
  obtain ⟨hreg, get, hloop⟩ := runRows_ok _ _ _ _ _ _ h
  rw [createDict_data] at hloop
  refine ⟨hreg, (updLoop_ok get appendUpd _ _ hloop).imp ?_⟩
  rintro p q ⟨h1, t, -, hupd⟩
  exact ⟨h1, t, appendUpd_ok _ _ _ hupd⟩

theorem rowWidth_aux (d : Dictionary) (entry : String) (source : Source)
    (f : Transform) (answer : String)
    (hrw : rowWidth d)
    (hal2 : lookupA d._alias2 (lowerStr entry) = none)
    (hfh : lookupA d.header (lowerStr entry) = none) :
    ∀ n override kws d',
      addEntriesAux n d entry source f override kws answer = .ok d' → rowWidth d' := by
  intro n
  induction n with
  | zero => intro override kws d' h; cases h
  | succ n ih =>
    intro override kws d'
    simp only [addEntriesAux]
    split_ifs with h0 h1 h2 h3 h4
    · intro h; cases h
    · exact ih false [] d'
    · exact ih true kws d'
    · intro h; cases h
    · intro h
      by_cases hhd : d._header = []
      · rw [createPath_synth_nil d entry source f kws hal2 hhd] at h
        cases h
      · obtain ⟨⟨-, hh, -, -, -⟩, hrows⟩ :=
          createPath_ok_synth d entry source f kws d' hal2 hhd h
        intro q hq
        obtain ⟨p, hp, -, t, hqt⟩ := forall2_mem_right hrows q hq
        have hlen : q.2.length = p.2.length + 1 := by simp [hqt]
        have hnum : numCols d' = numCols d + 1 := by
          unfold numCols
          rw [hh, createDict_header, length_insertA_of_none _ _ _ hfh]
        rw [hlen, hnum, hrw p hp]
    · intro h
      obtain ⟨rIdx, hl⟩ := overridePath_ok_shape d entry source f kws d' h
      obtain ⟨⟨-, hh, -, -, -⟩, hrows⟩ :=
        overridePath_ok d entry source f kws d' rIdx hl h
      intro q hq
      obtain ⟨p, hp, -, t, hqt, -⟩ := forall2_mem_right hrows q hq
      have hlen : q.2.length = p.2.length := by simp [hqt]
      have hnum : numCols d' = numCols d := by unfold numCols; rw [hh]
      rw [hlen, hnum, hrw p hp]

theorem lookupA_insert_pair_lo {β : Type} (m : List (String × β)) (lo up : String) (v : β) :
    lookupA (insertA (insertA m lo v) up v) lo = some v := by
  by_cases hul : lo = up
  · rw [hul, lookupA_insertA_self]
  · rw [lookupA_insertA_ne _ _ _ _ hul, lookupA_insertA_self]

/-- A small concrete dictionary used for witnesses: the two base columns of a
freshly parsed dictionary, with two rows keyed 1 and 2. -/
def baseDict : Dictionary where
  _header := [("head", 0), ("translation", 1)]
  header := [("head", 0), ("translation", 1)]
  _alias := [("head", "head"), ("translation", "translation")]
  _alias2 := [("head", ["head"]), ("translation", ["translation"])]
  entries := ["head", "translation"]
  _data := [(1, [.str "hand", .str "Hand"]), (2, [.str "foot", .str "Fuss"])]

/-- A transform modelling a Python callable `def f(s, **kw): return s`: the
identity on its single positional argument; the two-positional-argument
multi-column calling convention raises `TypeError` on it. -/
def idTransform : Transform where
  multi := fun _ _ => .error .typeError
  kw := fun v _ => .ok v

/-- A legitimate parsed state in which the string `"FOO"` is registered as an
alias of the canonical column `"bar"` (configuration files may declare
arbitrary alias spellings). -/
def aliasClashDict : Dictionary where
  _header := [("bar", 0), ("FOO", 0)]
  header := [("bar", 0)]
  _alias := [("bar", "bar"), ("FOO", "bar")]
  _alias2 := [("bar", ["bar", "FOO"])]
  entries := ["bar"]
  _data := [(1, [.str "x"])]

/-- A state whose alias table routes the unregistered name `"baz"` to the
already-registered canonical name `"foo"`. -/
def aliasRedirectDict : Dictionary where
  _header := [("foo", 0), ("bar", 1)]
  header := [("foo", 0), ("bar", 1)]
  _alias := [("foo", "foo"), ("bar", "bar"), ("baz", "foo")]
  _alias2 := [("foo", ["foo"]), ("bar", ["bar"]), ("baz", ["baz"])]
  entries := ["bar", "foo"]
  _data := [(1, [.str "a", .str "b"])]

/-- C1, counterexample: in a state satisfying alias-consistency in which
`"FOO"` is an alias of the registered column `"bar"`, adding the new column
`"foo"` succeeds but synthesizes the default alias pair `\x7b"foo", "FOO"\x7d`
and rebinds `"FOO"` to the new index, so the aliases of `"bar"` no longer
agree: the invariant does not hold after every `add_entries` invocation. -/
theorem C1_counterexample :
    aliasConsistent aliasClashDict ∧
      (add_entries aliasClashDict "foo" (.name "bar") idTransform false [] "n").isOk = true ∧
      ¬ aliasConsistent
        (stateOf (add_entries aliasClashDict "foo" (.name "bar") idTransform false [] "n")) :=
  ⟨by decide, by decide, by decide⟩

/-- C1 (amended): alias-consistency is preserved by every `add_entries`
invocation (create, override, retry, abort and error paths alike) provided the
new entry name is fresh for the alias registry: its lowercase form has no
alias list yet and neither its lowercase nor its uppercase form occurs in any
registered alias list.  Without that freshness proviso the synthesized default
alias pair can capture an existing alias of another canonical name. -/
theorem C1_alias_consistency (d : Dictionary) (entry : String) (source : Source)
    (f : Transform) (override : Bool) (kws : List (String × Val)) (answer : String)
    (hcons : aliasConsistent d)
    (hal2 : lookupA d._alias2 (lowerStr entry) = none)
    (hfresh : ∀ p ∈ d._alias2, ∀ a ∈ p.2, a ≠ (lowerStr entry) ∧ a ≠ (upperStr entry)) :
    aliasConsistent (stateOf (add_entries d entry source f override kws answer)) :=
  aliasConsistent_aux d entry source f answer hcons hal2 hfresh 4 override kws

/-- Witness for C1: the hypotheses hold for adding `"gloss"` to the base
dictionary, and the conclusion follows by the theorem. -/
theorem C1_alias_consistency_witness :
    (aliasConsistent baseDict ∧
      lookupA baseDict._alias2 ((lowerStr "gloss")) = none ∧
      (∀ p ∈ baseDict._alias2, ∀ a ∈ p.2, a ≠ (lowerStr "gloss") ∧ a ≠ (upperStr "gloss"))) ∧
    aliasConsistent
      (stateOf (add_entries baseDict "gloss" (.name "head") idTransform false [] "n")) :=
  ⟨⟨by decide, by decide, by decide⟩,
    C1_alias_consistency baseDict "gloss" (.name "head") idTransform false [] "n"
      (by decide) (by decide) (by decide)⟩

/-- C2, counterexample: in a state satisfying the row-width invariant whose
alias table routes `"baz"` to the registered canonical name `"foo"`, adding
`"baz"` succeeds, appends one value to every row, but rebinds the existing
canonical column `"foo"` to the new index instead of registering a new one, so
rows end up one value longer than the number of registered canonical
columns. -/
theorem C2_counterexample :
    rowWidth aliasRedirectDict ∧
      (add_entries aliasRedirectDict "baz" (.name "bar") idTransform false [] "n").isOk = true ∧
      ¬ rowWidth
        (stateOf (add_entries aliasRedirectDict "baz" (.name "bar") idTransform false [] "n")) :=
  ⟨by decide, by decide, by decide⟩

/-- C2 (amended): if every row has one value per registered canonical column,
then after any successful `add_entries` call — create or override — every
row's value count again equals the number of registered canonical columns,
provided the alias tables do not redirect the new entry to an
already-registered canonical name: the entry's lowercase form has no alias
list yet and is not a registered canonical name. -/
theorem C2_row_width (d : Dictionary) (entry : String) (source : Source)
    (f : Transform) (override : Bool) (kws : List (String × Val)) (answer : String)
    (d' : Dictionary)
    (hrw : rowWidth d)
    (hal2 : lookupA d._alias2 (lowerStr entry) = none)
    (hfh : lookupA d.header (lowerStr entry) = none)
    (h : add_entries d entry source f override kws answer = .ok d') :
    rowWidth d' :=
  rowWidth_aux d entry source f answer hrw hal2 hfh 4 override kws d' h

/-- Witness for C2: adding `"gloss"` to the base dictionary satisfies the
hypotheses, and the resulting state satisfies the row-width invariant. -/
theorem C2_row_width_witness :
    (rowWidth baseDict ∧
      lookupA baseDict._alias2 ((lowerStr "gloss")) = none ∧
      lookupA baseDict.header ((lowerStr "gloss")) = none) ∧
    rowWidth (stateOf (add_entries baseDict "gloss" (.name "head") idTransform false [] "n")) :=
  ⟨⟨by decide, by decide, by decide⟩,
    C2_row_width baseDict "gloss" (.name "head") idTransform false [] "n"
      (stateOf (add_entries baseDict "gloss" (.name "head") idTransform false [] "n"))
      (by decide) (by decide) (by decide) (by decide)⟩

/-- C3, counterexample: creating the column `"Tok"` succeeds and registers the
canonical lowercase name `"tok"` in the header, but the entries set receives
the raw name `"Tok"`, not the canonical lowercase name `"tok"` that the claim
announces. -/
theorem C3_counterexample :
    (add_entries baseDict "Tok" (.name "head") idTransform false [] "n").isOk = true ∧
      lookupA (stateOf (add_entries baseDict "Tok" (.name "head") idTransform false [] "n")).header
        "tok" = some 2 ∧
      "tok" ∉ (stateOf (add_entries baseDict "Tok" (.name "head") idTransform false [] "n")).entries ∧
      "Tok" ∈ (stateOf (add_entries baseDict "Tok" (.name "head") idTransform false [] "n")).entries :=
  ⟨by decide, by decide, by decide, by decide⟩

/-- C3 (amended): on the create path for a non-empty unregistered entry name
with no preexisting alias set, `add_entries` synthesizes the default alias
pair `\x7blower(name), upper(name)\x7d`, assigns the new column the index
`max(existing indices) + 1`, binds both alias variants to that index, records
the canonical lowercase name in the canonical header, adds the *raw* entry
name (not the lowercase canonical name) to the sorted entries set, and appends
exactly one derived value to every row. -/
theorem C3_create_path (d : Dictionary) (entry : String) (source : Source)
    (f : Transform) (kws : List (String × Val)) (answer : String) (d' : Dictionary)
    (hne : entry ≠ "")
    (hnh : lookupA d._header entry = none)
    (hal2 : lookupA d._alias2 (lowerStr entry) = none)
    (hhd : d._header ≠ [])
    (h : add_entries d entry source f false kws answer = .ok d') :
    lookupA d'._alias2 (lowerStr entry) = some [lowerStr entry, upperStr entry] ∧
      lookupA d'._header (lowerStr entry) = some (maxVals d._header + 1) ∧
      lookupA d'._header (upperStr entry) = some (maxVals d._header + 1) ∧
      lookupA d'.header (lowerStr entry) = some (maxVals d._header + 1) ∧
      d'.entries = sortedSet (d.entries ++ [entry]) ∧
      entry ∈ d'.entries ∧
      List.Forall₂ (fun p q => q.1 = p.1 ∧ ∃ t, q.2 = p.2 ++ [t]) d._data d'._data := by
  have h' : createPath d entry source f kws = .ok d' := by
    rw [← addEntriesAux_create 3 d entry source f kws answer hne hnh]
    exact h
  obtain ⟨⟨e1, e2, e3, e4, e5⟩, hrows⟩ :=
    createPath_ok_synth d entry source f kws d' hal2 hhd h'
  refine ⟨?_, ?_, ?_, ?_, ?_, ?_, hrows⟩
  · rw [e4, createDict_alias2, lookupA_insertA_self]
  · rw [e1, createDict_header2, lookupA_insert_pair_lo]
  · rw [e1, createDict_header2, lookupA_insertA_self]
  · rw [e2, createDict_header, lookupA_insertA_self]
  · rw [e5, createDict_entries]
  · rw [e5, createDict_entries, mem_sortedSet]
    simp

/-- Witness for C3: the hypotheses hold for adding `"gloss"` to the base
dictionary, and the conclusion follows by the theorem. -/
theorem C3_create_path_witness :
    ("gloss" ≠ "" ∧
      lookupA baseDict._header "gloss" = none ∧
      lookupA baseDict._alias2 (lowerStr "gloss") = none ∧
      baseDict._header ≠ []) ∧
    (lookupA (stateOf (add_entries baseDict "gloss" (.name "head") idTransform false [] "n"))._header
        (lowerStr "gloss") = some (maxVals baseDict._header + 1) ∧
      "gloss" ∈ (stateOf (add_entries baseDict "gloss" (.name "head") idTransform false [] "n")).entries) := by
  have hmain := C3_create_path baseDict "gloss" (.name "head") idTransform [] "n"
    (stateOf (add_entries baseDict "gloss" (.name "head") idTransform false [] "n"))
    (by decide) (by decide) (by decide) (by decide) (by decide)
  exact ⟨⟨by decide, by decide, by decide, by decide⟩, hmain.2.1, hmain.2.2.2.2.2.1⟩

theorem addEntriesAux_conflict_abort (n : Nat) (d : Dictionary) (entry : String)
    (source : Source) (f : Transform) (kws : List (String × Val)) (answer : String)
    (hne : entry ≠ "") (hH : (lookupA d._header entry).isSome)
    (hans : (lowerStr answer) ∉ (["y", "yes", "j"] : List String)) :
    addEntriesAux (n + 1) d entry source f false kws answer = .aborted d := by
  simp [addEntriesAux, hne, hH, hans]

/-- C4, counterexample: with the entry `"head"` already registered and
`override = false`, the call does not fail without mutating: it consults the
interactive answer, and with the affirmative answer `"y"` it returns normally
after overwriting row values, while the negative answer `"n"` produces a
different outcome — so the call both mutates and depends on interactive
input. -/
theorem C4_counterexample :
    (add_entries baseDict "head" (.name "translation") idTransform false [] "y").isOk = true ∧
      stateOf (add_entries baseDict "head" (.name "translation") idTransform false [] "y") ≠
        baseDict ∧
      add_entries baseDict "head" (.name "translation") idTransform false [] "y" ≠
        add_entries baseDict "head" (.name "translation") idTransform false [] "n" :=
  ⟨by decide, by decide, by decide⟩

/-- C4 (amended): on a conflict — the entry is already registered and
`override = false` — the call consults the interactive answer; with a
*negative* answer it aborts with the state completely unchanged (the
`ColumnExists` refusal), and a subsequent call with `override = true` returns
normally while preserving the whole header mapping, hence the column's
original index. -/
theorem C4_conflict (d : Dictionary) (entry : String) (source : Source)
    (f : Transform) (kws : List (String × Val)) (answer : String) (i j : Nat)
    (hne : entry ≠ "")
    (hH : lookupA d._header entry = some i)
    (hh : lookupA d.header entry = some j)
    (hans : (lowerStr answer) ∉ (["y", "yes", "j"] : List String)) :
    add_entries d entry source f false kws answer = .aborted d ∧
      ∀ d', add_entries d entry source f true kws answer = .ok d' →
        d'._header = d._header ∧ d'.header = d.header := by
  constructor
  · rw [add_entries]
    exact addEntriesAux_conflict_abort 3 d entry source f kws answer hne
      (by rw [hH]; rfl) hans
  · intro d' h
    rw [add_entries, addEntriesAux_override 3 d entry source f kws answer j hne hh] at h
    obtain ⟨rIdx, hl⟩ := overridePath_ok_shape _ _ _ _ _ _ h
    obtain ⟨⟨e1, e2, -, -, -⟩, -⟩ := overridePath_ok _ _ _ _ _ _ rIdx hl h
    exact ⟨e1, e2⟩

/-- Witness for C4: with the registered entry `"head"` and the negative
answer `"n"`, the conflicting call aborts with the state unchanged. -/
theorem C4_conflict_witness :
    ("head" ≠ "" ∧ lookupA baseDict._header "head" = some 0 ∧
      lookupA baseDict.header "head" = some 0 ∧
      (lowerStr "n") ∉ (["y", "yes", "j"] : List String)) ∧
    add_entries baseDict "head" (.name "translation") idTransform false [] "n" =
      .aborted baseDict :=
  ⟨⟨by decide, by decide, by decide, by decide⟩,
    (C4_conflict baseDict "head" (.name "translation") idTransform [] "n" 0 0
      (by decide) (by decide) (by decide) (by decide)).1⟩

/-- C5: the override path writes the derived value at the column's resolved
index in every row and changes nothing else: header mapping, canonical map,
alias tables and the entries set are untouched. -/
theorem C5_override_frame (d : Dictionary) (entry : String) (source : Source)
    (f : Transform) (kws : List (String × Val)) (answer : String) (d' : Dictionary)
    (i rIdx : Nat)
    (hne : entry ≠ "")
    (hh : lookupA d.header entry = some i)
    (hl : lookupA d._header (lowerStr entry) = some rIdx)
    (h : add_entries d entry source f true kws answer = .ok d') :
    d'._header = d._header ∧ d'.header = d.header ∧ d'._alias = d._alias ∧
      d'._alias2 = d._alias2 ∧ d'.entries = d.entries ∧
      List.Forall₂ (fun p q => q.1 = p.1 ∧ ∃ t, q.2 = p.2.set rIdx t) d._data d'._data := by
  rw [add_entries, addEntriesAux_override 3 d entry source f kws answer i hne hh] at h
  obtain ⟨⟨e1, e2, e3, e4, e5⟩, hrows⟩ := overridePath_ok d entry source f kws d' rIdx hl h
  refine ⟨e1, e2, e3, e4, e5, hrows.imp ?_⟩
  rintro p q ⟨h1, t, ht, -⟩
  exact ⟨h1, t, ht⟩

/-- Witness for C5: overriding the registered column `"head"` from
`"translation"` succeeds and satisfies the frame property. -/
theorem C5_override_frame_witness :
    ("head" ≠ "" ∧ lookupA baseDict.header "head" = some 0 ∧
      lookupA baseDict._header (lowerStr "head") = some 0) ∧
    ((stateOf (add_entries baseDict "head" (.name "translation") idTransform true [] "n"))._header =
        baseDict._header ∧
      (stateOf (add_entries baseDict "head" (.name "translation") idTransform true [] "n")).header =
        baseDict.header ∧
      (stateOf (add_entries baseDict "head" (.name "translation") idTransform true [] "n"))._alias =
        baseDict._alias ∧
      (stateOf (add_entries baseDict "head" (.name "translation") idTransform true [] "n"))._alias2 =
        baseDict._alias2 ∧
      (stateOf (add_entries baseDict "head" (.name "translation") idTransform true [] "n")).entries =
        baseDict.entries ∧
      List.Forall₂ (fun p q => q.1 = p.1 ∧ ∃ t, q.2 = p.2.set 0 t) baseDict._data
        (stateOf (add_entries baseDict "head" (.name "translation") idTransform true [] "n"))._data) :=
  ⟨⟨by decide, by decide, by decide⟩,
    C5_override_frame baseDict "head" (.name "translation") idTransform [] "n"
      (stateOf (add_entries baseDict "head" (.name "translation") idTransform true [] "n"))
      0 0 (by decide) (by decide) (by decide) (by decide)⟩

/-- A transform modelling `def f(s, **kw): return kw.get("x", s)` — sensitive
to the keyword arguments it is called with. -/
def kwTransform : Transform where
  multi := fun _ _ => .error .typeError
  kw := fun v kws => .ok ((lookupA kws "x").getD v)

/-- C6, counterexample: for the unregistered entry `"gloss"` and a
keyword-sensitive transform, the silently retried override call does *not*
produce the same result as the same call with `override = false`, because the
retry `self.add_entries(entry, source, function, override=False)` drops the
keyword arguments. -/
theorem C6_counterexample :
    add_entries baseDict "gloss" (.name "head") kwTransform true [("x", .str "KW")] "n" ≠
      add_entries baseDict "gloss" (.name "head") kwTransform false [("x", .str "KW")] "n" := by
  decide

/-- C6 (amended): when an override is requested for an entry that is not a
registered canonical column, the call is silently retried as a non-override
add *with the keyword options dropped*: it equals the same call with
`override = false` and an empty keyword dictionary. -/
theorem C6_override_retry (d : Dictionary) (entry : String) (source : Source)
    (f : Transform) (kws : List (String × Val)) (answer : String)
    (h : lookupA d.header entry = none) :
    add_entries d entry source f true kws answer =
      add_entries d entry source f false [] answer := by
  by_cases h0 : entry = ""
  · simp [add_entries, addEntriesAux, h0]
  · rw [add_entries, add_entries]
    have h4 : addEntriesAux 4 d entry source f true kws answer =
        addEntriesAux 3 d entry source f false [] answer := by
      simp [addEntriesAux, h0, h]
    rw [h4]
    by_cases h1 : (lookupA d._header entry).isSome
    · by_cases hy : (lowerStr answer) ∈ (["y", "yes", "j"] : List String)
      · simp [addEntriesAux, h0, h, h1, hy]
      · simp [addEntriesAux, h0, h, h1, hy]
    · have h1' : (lookupA d._header entry).isSome = false := by
        simpa using h1
      simp [addEntriesAux, h0, h, h1']

/-- Witness for C6: the base dictionary with the unregistered entry
`"gloss"`. -/
theorem C6_override_retry_witness :
    lookupA baseDict.header "gloss" = none ∧
      add_entries baseDict "gloss" (.name "head") kwTransform true [("x", .str "KW")] "n" =
        add_entries baseDict "gloss" (.name "head") kwTransform false [] "n" :=
  ⟨by decide,
    C6_override_retry baseDict "gloss" (.name "head") kwTransform [("x", .str "KW")] "n"
      (by decide)⟩

theorem extGet_err_shape (f : Transform) (m : List (Nat × Val))
    (hf : ∀ v, ∃ t, f.kw v [] = .ok t) (k : Nat) (r : List Val) (e : AddError)
    (h : extGet f m k r = .error e) : ∃ k0, e = .missingSourceKey k0 := by
  cases hm : lookupA m k with
  | none =>
    simp only [extGet, hm] at h
    injection h with h
    exact ⟨k, h.symm⟩
  | some v =>
    simp only [extGet, hm] at h
    obtain ⟨t, ht⟩ := hf v
    rw [ht] at h
    cases h

/-- C7: with an external key→value mapping as source, a row key absent from
the mapping makes `add_entries` raise the `MissingSourceKey` error instead of
silently skipping the row, on the create path and on the override path alike
(the branch hypothesis selects which path the call takes). -/
theorem C7_missing_source_key (d : Dictionary) (entry : String) (m : List (Nat × Val))
    (f : Transform) (override : Bool) (kws : List (String × Val)) (answer : String)
    (hne : entry ≠ "")
    (hmiss : ∃ p ∈ d._data, lookupA m p.1 = none)
    (hf : ∀ v, ∃ t, f.kw v [] = .ok t)
    (hbranch : (override = false ∧ lookupA d._header entry = none ∧
        lookupA d._alias2 (lowerStr entry) = none ∧ d._header ≠ []) ∨
      (override = true ∧ (∃ i, lookupA d.header entry = some i) ∧
        (∃ rIdx, lookupA d._header (lowerStr entry) = some rIdx ∧
          ∀ p ∈ d._data, rIdx < p.2.length))) :
    ∃ k d'', add_entries d entry (.ext m) f override kws answer =
      .err (.missingSourceKey k) d'' := by
  have hex : ∃ p ∈ d._data, ∃ e0, extGet f m p.1 p.2 = .error e0 := by
    obtain ⟨p, hp, hpm⟩ := hmiss
    exact ⟨p, hp, .missingSourceKey p.1, by unfold extGet; rw [hpm]⟩
  have herr : ∀ p ∈ d._data, ∀ e, extGet f m p.1 p.2 = .error e →
      ∃ k0, e = AddError.missingSourceKey k0 :=
    fun p _ e he => extGet_err_shape f m hf p.1 p.2 e he
  rcases hbranch with ⟨hov, hnh, hal2, hhd⟩ | ⟨hov, ⟨i, hh⟩, ⟨rIdx, hl, hbound⟩⟩
  · subst hov
    rw [add_entries, addEntriesAux_create 3 d entry (.ext m) f kws answer hne hnh,
      createPath_synth d entry (.ext m) f kws hal2 hhd, runRows_ext, createDict_data]
    obtain ⟨e, rows', hloop, k0, hk0⟩ :=
      updLoop_err_exists (extGet f m) appendUpd
        (fun e => ∃ k0, e = AddError.missingSourceKey k0) d._data herr
        (fun p _ t _ => ⟨p.2 ++ [t], rfl⟩) hex
    subst hk0
    rw [hloop]
    exact ⟨k0, _, rfl⟩
  · subst hov
    rw [add_entries, addEntriesAux_override 3 d entry (.ext m) f kws answer i hne hh,
      overridePath_eq d entry (.ext m) f kws rIdx hl, runRows_ext]
    obtain ⟨e, rows', hloop, k0, hk0⟩ :=
      updLoop_err_exists (extGet f m) (setUpd rIdx)
        (fun e => ∃ k0, e = AddError.missingSourceKey k0) d._data herr
        (fun p hp t _ => ⟨p.2.set rIdx t, by
          unfold setUpd
          rw [if_pos (hbound p hp)]⟩) hex
    subst hk0
    rw [hloop]
    exact ⟨k0, _, rfl⟩

/-- Witness for C7: an external mapping holding only row key 1 while the base
dictionary also has row key 2, on the create path for the new entry
`"gloss"`. -/
theorem C7_missing_source_key_witness :
    ("gloss" ≠ "" ∧
      (∃ p ∈ baseDict._data, lookupA [(1, Val.str "one")] p.1 = none) ∧
      (false = false ∧ lookupA baseDict._header "gloss" = none ∧
        lookupA baseDict._alias2 (lowerStr "gloss") = none ∧ baseDict._header ≠ [])) ∧
    ∃ k d'', add_entries baseDict "gloss" (.ext [(1, Val.str "one")]) idTransform false [] "n" =
      .err (.missingSourceKey k) d'' :=
  ⟨⟨by decide, by decide, by decide⟩,
    C7_missing_source_key baseDict "gloss" [(1, Val.str "one")] idTransform false [] "n"
      (by decide) (by decide) (fun v => ⟨v, rfl⟩)
      (Or.inl ⟨rfl, by decide, by decide, by decide⟩)⟩

theorem getElem?_of_lt (l : List Val) (i : Nat) (h : i < l.length) :
    l[i]? = some (l.getD i (.str "")) := by
  rw [List.getElem?_eq_getElem h, List.getD_eq_getElem l _ h]

theorem collectRows_single (i : Nat) :
    ∀ rows : List (Nat × List Val), (∀ p ∈ rows, i < p.2.length) →
      collectRows (fun r => (r[i]?).map Proj.val) rows =
        some (rows.map (fun p => Proj.val (p.2.getD i (.str "")))) := by
  intro rows
  induction rows with
  | nil => intro; rfl
  | cons p rest ih =>
    intro hb
    have hi := getElem?_of_lt p.2 i (hb p (by simp))
    simp only [collectRows, hi, ih (fun q hq => hb q (by simp [hq]))]
    rfl

theorem collectRows_pair (i j : Nat) :
    ∀ rows : List (Nat × List Val), (∀ p ∈ rows, i < p.2.length ∧ j < p.2.length) →
      collectRows (fun r => (getIdxs r [i, j]).map Proj.tup) rows =
        some (rows.map (fun p =>
          Proj.tup [p.2.getD i (.str ""), p.2.getD j (.str "")])) := by
  intro rows
  induction rows with
  | nil => intro; rfl
  | cons p rest ih =>
    intro hb
    obtain ⟨hbi, hbj⟩ := hb p (by simp)
    have hi := getElem?_of_lt p.2 i hbi
    have hj := getElem?_of_lt p.2 j hbj
    have hg : getIdxs p.2 [i, j] =
        some [p.2.getD i (.str ""), p.2.getD j (.str "")] := by
      simp only [getIdxs, hi, hj]
    simp only [collectRows, hg, ih (fun q hq => hb q (by simp [hq]))]
    rfl

/-- C8: with `"head"` and `"translation"` both registered and every row wide
enough, `get_tuples ["head"]` returns exactly one bare value per row in
row-store order (likewise for `"translation"`), `get_tuples
["head","translation"]` returns one 2-tuple per row, and at every row
position the 2-tuple's components equal the corresponding single-column
projections. -/
theorem C8_projection_alignment (d : Dictionary) (i j : Nat)
    (hi : lookupA d._header "head" = some i)
    (hj : lookupA d._header "translation" = some j)
    (hb : ∀ p ∈ d._data, i < p.2.length ∧ j < p.2.length) :
    get_tuples d ["head"] =
        some (d._data.map (fun p => Proj.val (p.2.getD i (.str "")))) ∧
      get_tuples d ["translation"] =
        some (d._data.map (fun p => Proj.val (p.2.getD j (.str "")))) ∧
      get_tuples d ["head", "translation"] =
        some (d._data.map (fun p =>
          Proj.tup [p.2.getD i (.str ""), p.2.getD j (.str "")])) ∧
      (d._data.map (fun p => Proj.val (p.2.getD i (.str "")))).length = d._data.length ∧
      (∀ n : Nat, ∀ x y : Val,
        (d._data.map (fun p => Proj.val (p.2.getD i (.str ""))))[n]? = some (Proj.val x) →
        (d._data.map (fun p => Proj.val (p.2.getD j (.str ""))))[n]? = some (Proj.val y) →
        (d._data.map (fun p =>
          Proj.tup [p.2.getD i (.str ""), p.2.getD j (.str "")]))[n]? =
          some (Proj.tup [x, y])) := by
  have eH : (["head"] : List String).filterMap
      (fun entry => lookupA d._header entry) = [i] := by
    simp [hi]
  have eT : (["translation"] : List String).filterMap
      (fun entry => lookupA d._header entry) = [j] := by
    simp [hj]
  have eP : (["head", "translation"] : List String).filterMap
      (fun entry => lookupA d._header entry) = [i, j] := by
    simp [hi, hj]
  refine ⟨?_, ?_, ?_, List.length_map _ _, ?_⟩
  · unfold get_tuples
    rw [eH]
    exact collectRows_single i d._data (fun p hp => (hb p hp).1)
  · unfold get_tuples
    rw [eT]
    exact collectRows_single j d._data (fun p hp => (hb p hp).2)
  · unfold get_tuples
    rw [eP]
    exact collectRows_pair i j d._data hb
  · intro n x y hx hy
    rw [List.getElem?_map] at hx hy ⊢
    cases hn : d._data[n]? with
    | none => rw [hn] at hx; cases hx
    | some p =>
      rw [hn] at hx hy
      simp only [Option.map_some'] at hx hy
      injection hx with hx
      injection hy with hy
      injection hx with hx
      injection hy with hy
      rw [← hx, ← hy]
      rfl

/-- Witness for C8: the base dictionary with its two rows. -/
theorem C8_projection_alignment_witness :
    (lookupA baseDict._header "head" = some 0 ∧
      lookupA baseDict._header "translation" = some 1 ∧
      (∀ p ∈ baseDict._data, 0 < p.2.length ∧ 1 < p.2.length)) ∧
    get_tuples baseDict ["head", "translation"] =
      some (baseDict._data.map (fun p =>
        Proj.tup [p.2.getD 0 (.str ""), p.2.getD 1 (.str "")])) :=
  ⟨⟨by decide, by decide, by decide⟩,
    (C8_projection_alignment baseDict 0 1 (by decide) (by decide) (by decide)).2.2.1⟩

/-- C10: when exactly one of the requested column names resolves in the
header — however many names were requested — `get_tuples` returns the bare
values of that one column, not 1-tuples; and when none resolves it returns
the empty list without error. -/
theorem C10_single_or_empty (d : Dictionary) (columns : List String) (i : Nat)
    (h1 : columns.filterMap (fun entry => lookupA d._header entry) = [i])
    (hb : ∀ p ∈ d._data, i < p.2.length) :
    get_tuples d columns =
        some (d._data.map (fun p => Proj.val (p.2.getD i (.str "")))) ∧
      ∀ columns0 : List String,
        columns0.filterMap (fun entry => lookupA d._header entry) = [] →
        get_tuples d columns0 = some [] := by
  constructor
  · unfold get_tuples
    rw [h1]
    exact collectRows_single i d._data hb
  · intro columns0 h0
    unfold get_tuples
    rw [h0]

/-- Witness for C10: requesting `["nothere", "head"]` from the base
dictionary resolves only `"head"`; requesting `["nothere"]` resolves
nothing. -/
theorem C10_single_or_empty_witness :
    ((["nothere", "head"] : List String).filterMap
        (fun entry => lookupA baseDict._header entry) = [0] ∧
      (∀ p ∈ baseDict._data, 0 < p.2.length)) ∧
    (get_tuples baseDict ["nothere", "head"] =
        some (baseDict._data.map (fun p => Proj.val (p.2.getD 0 (.str "")))) ∧
      get_tuples baseDict ["nothere"] = some []) := by
  have hmain := C10_single_or_empty baseDict ["nothere", "head"] 0 (by decide) (by decide)
  exact ⟨⟨by decide, by decide⟩, hmain.1, hmain.2 ["nothere"] (by decide)⟩

/-- C9: the tokenization adapter builds a transform that maps a raw string to
a token sequence when the target is the reserved name `"tokens"` and to the
tokenizer's native string output for any other target; this transform is
handed unmodified to `add_entries` for the target column with `override =
false` and no keywords, and a successful call appends to every row the token
sequence obtained by splitting the tokenizer's output on its `"head"`
value. -/
theorem C9_tokenize_adapter (t : String → String) (d : Dictionary)
    (answer : String) (hi : Nat)
    (hnh : lookupA d._header "tokens" = none)
    (hal2 : lookupA d._alias2 (lowerStr "tokens") = none)
    (hhd : d._header ≠ [])
    (hhead : lookupA d._header "head" = some hi)
    (hrows : ∀ p ∈ d._data, ∃ s, p.2[hi]? = some (Val.str s)) :
    (∀ s, (tokTransform t "tokens").kw (.str s) [] =
        .ok (.toks (splitChar (t s) ' '))) ∧
      (∀ tgt, tgt ≠ "tokens" → ∀ s, (tokTransform t tgt).kw (.str s) [] =
        .ok (.str (t s))) ∧
      tokenize t d "head" "tokens" answer =
        add_entries d "tokens" (.name "head") (tokTransform t "tokens") false [] answer ∧
      ∃ d', tokenize t d "head" "tokens" answer = .ok d' ∧
        List.Forall₂ (fun p q => q.1 = p.1 ∧ ∀ s, p.2[hi]? = some (Val.str s) →
          q.2 = p.2 ++ [Val.toks (splitChar (t s) ' ')]) d._data d'._data := by
  have hc2 : ∀ tgt, tgt ≠ "tokens" → ∀ s, (tokTransform t tgt).kw (.str s) [] =
      .ok (.str (t s)) := by
    intro tgt htgt s
    simp [tokTransform, htgt]
  refine ⟨fun s => rfl, hc2, rfl, ?_⟩
  have hne : ("tokens" : String) ≠ "" := by decide
  have hc : containsChar "head" ',' = false := by decide
  have hidx : lookupA (createDict d "tokens")._header "head" = some hi := by
    rw [createDict_header2,
      lookupA_insertA_ne _ _ _ _ (by decide : ("head" : String) ≠ upperStr "tokens"),
      lookupA_insertA_ne _ _ _ _ (by decide : ("head" : String) ≠ lowerStr "tokens"),
      hhead]
  have hstep : tokenize t d "head" "tokens" answer =
      finishLoop (createDict d "tokens")
        (updLoop (singleGet (tokTransform t "tokens") hi []) appendUpd d._data) := by
    rw [tokenize, add_entries,
      addEntriesAux_create 3 d "tokens" (.name "head") (tokTransform t "tokens") [] answer
        hne hnh,
      createPath_synth d "tokens" (.name "head") (tokTransform t "tokens") [] hal2 hhd,
      runRows_name_single (createDict d "tokens") "head" (tokTransform t "tokens") []
        appendUpd hi hc hidx, createDict_data]
  have htot : ∀ p ∈ d._data, ∃ t0 r',
      singleGet (tokTransform t "tokens") hi [] p.1 p.2 = .ok t0 ∧
        appendUpd p.2 t0 = .ok r' := by
    intro p hp
    obtain ⟨s, hs⟩ := hrows p hp
    refine ⟨.toks (splitChar (t s) ' '), p.2 ++ [.toks (splitChar (t s) ' ')], ?_, ?_⟩
    · simp only [singleGet, hs]
      rfl
    · rfl
  obtain ⟨rows', hloop⟩ :=
    updLoop_total (singleGet (tokTransform t "tokens") hi []) appendUpd d._data htot
  refine ⟨{ createDict d "tokens" with _data := rows' }, ?_, ?_⟩
  · rw [hstep, hloop]
    rfl
  · have hfa := updLoop_ok _ _ _ _ hloop
    refine hfa.imp ?_
    rintro p q ⟨h1, t0, hget, hupd⟩
    refine ⟨h1, fun s hs => ?_⟩
    simp only [singleGet, hs] at hget
    have ht0 : t0 = Val.toks (splitChar (t s) ' ') := by
      have heq : (tokTransform t "tokens").kw (.str s) [] =
          .ok (.toks (splitChar (t s) ' ')) := rfl
      rw [heq] at hget
      injection hget with hget
      exact hget.symm
    rw [appendUpd_ok _ _ _ hupd, ht0]

/-- Witness for C9: tokenizing the base dictionary with a tokenizer that
separates every character by a space. -/
theorem C9_tokenize_adapter_witness :
    (lookupA baseDict._header "tokens" = none ∧
      lookupA baseDict._alias2 (lowerStr "tokens") = none ∧
      baseDict._header ≠ [] ∧
      lookupA baseDict._header "head" = some 0 ∧
      (∀ p ∈ baseDict._data, ∃ s, p.2[0]? = some (Val.str s))) ∧
    ∃ d', tokenize (fun s => s) baseDict "head" "tokens" "n" = .ok d' ∧
      List.Forall₂ (fun p q => q.1 = p.1 ∧ ∀ s, p.2[0]? = some (Val.str s) →
        q.2 = p.2 ++ [Val.toks (splitChar s ' ')]) baseDict._data d'._data := by
  have hrows0 : ∀ p ∈ baseDict._data, ∃ s, p.2[0]? = some (Val.str s) := by
    intro p hp
    rcases List.mem_cons.mp hp with h | h
    · exact ⟨"hand", by subst h; rfl⟩
    · rcases List.mem_cons.mp h with h' | h'
      · exact ⟨"foot", by subst h'; rfl⟩
      · exact absurd h' (List.not_mem_nil p)
  have hmain := C9_tokenize_adapter (fun s => s) baseDict "n" 0
    (by decide) (by decide) (by decide) (by decide) hrows0
  exact ⟨⟨by decide, by decide, by decide, by decide, hrows0⟩, hmain.2.2.2⟩
end Lingpy
